import Mathlib

/-!
Shallow embedding of the ray-tracing core of arim (src/arim/im/fermat_solver.py):
the classes FermatPath, Rays and FermatSolver, together with the angle
accessors, and proofs of the properties claimed in the specification.

Modelling conventions:
- numpy arrays are modelled as shape-carrying structures whose payload is a
  total function on natural-number indices; entries outside the declared
  shape are irrelevant and never constrained.
- floating point times, speeds and distances are modelled as rationals.
- Points objects (point sets) are modelled as abstract handles (naturals);
  their sizes and pairwise distances are supplied by an environment record,
  since coordinate storage and distance_pairwise live in arim.geometry,
  outside the verified core.
- Python object identity for Rays instances is modelled by an allocation
  counter: each constructed Rays value carries a fresh id.
-/

/-- Two-dimensional array of rationals (times or distances), numpy style:
a declared shape (n, m) plus the entries as a total function. -/
structure Arr2Q where
  n : Nat
  m : Nat
  data : Nat → Nat → ℚ

/-- Two-dimensional array of point indices, shape (n, m). -/
structure Arr2N where
  n : Nat
  m : Nat
  data : Nat → Nat → Nat

/-- Three-dimensional array of point indices, shape (d, n, m). -/
structure Arr3N where
  d : Nat
  n : Nat
  m : Nat
  data : Nat → Nat → Nat → Nat

/-- FermatPath (class FermatPath): an odd-length alternating tuple
(points, speed, points, ..., points) of length at least 3. base a v b is the
three-element path; snoc p v b extends a path on the right by one speed and
one point set, which matches the split self[:-2] / self[-3:] performed by
split_queue. Point sets are abstract handles of type Nat; speeds are ℚ. -/
inductive FPath where
  | base (a : Nat) (v : ℚ) (b : Nat)
  | snoc (p : FPath) (v : ℚ) (b : Nat)
deriving DecidableEq

/-- First point set of the path (self[0]). -/
def firstPoint : FPath → Nat
  | .base a _ _ => a
  | .snoc p _ _ => firstPoint p

/-- Last point set of the path (self[-1]). -/
def lastPoint : FPath → Nat
  | .base _ _ b => b
  | .snoc _ _ b => b

/-- FermatPath.num_points_sets: len(self) // 2 + 1. -/
def numPointSets : FPath → Nat
  | .base _ _ _ => 2
  | .snoc p _ _ => numPointSets p + 1

/-- Length of the underlying Python tuple. -/
def pathLen : FPath → Nat
  | .base _ _ _ => 3
  | .snoc p _ _ => pathLen p + 2

/-- FermatPath.split_queue: head = self[:-2], tail = self[-3:]. Fails for
paths of fewer than 5 elements, that is for base paths. -/
def splitQueue : FPath → Except String (FPath × FPath)
  | .base _ _ _ => .error ("Not enough elements to split (min: 5)")
  | .snoc p v b => .ok (p, .base (lastPoint p) v b)

/-- First three elements of the path, self[:3], as a base path. -/
def firstGapHead : FPath → FPath
  | .base a v b => .base a v b
  | .snoc p _ _ => firstGapHead p

/-- Computes (snoc p v b)[2:], the path with its first point set and first
speed removed. -/
def beheadSnoc : FPath → ℚ → Nat → FPath
  | .base _ _ b0, v, b => .base b0 v b
  | .snoc q v1 b1, v, b => .snoc (beheadSnoc q v1 b1) v b

/-- FermatPath.split_head: head = self[:3], tail = self[2:]. Fails for paths
of fewer than 5 elements. -/
def splitHead : FPath → Except String (FPath × FPath)
  | .base _ _ _ => .error ("Not enough elements to split (min: 5)")
  | .snoc p v b => .ok (firstGapHead p, beheadSnoc p v b)

/-- Grafts the elements tail[1:] onto head, as in (*self, *tail[1:]). -/
def fappend (h : FPath) : FPath → FPath
  | .base _ v b => .snoc h v b
  | .snoc t v b => .snoc (fappend h t) v b

/-- FermatPath.__add__: fails when self[-1] != tail[0], otherwise returns
the spliced sequence sharing the junction point set once. -/
def fadd (h t : FPath) : Except String FPath :=
  if lastPoint h = firstPoint t then .ok (fappend h t)
  else .error ("Cannot join two subpaths with different extremities.")

/-- Rays.make_indices: builds the full (dm2+2, n, m) index array from the
interior indices; layer 0 is i, the last layer is j, the layers in between
are the interior indices shifted by one. -/
def makeIndices (dm2 : Nat) (interior : Nat → Nat → Nat → Nat) : Nat → Nat → Nat → Nat :=
  fun k i j => if k = 0 then i else if k = dm2 + 1 then j else interior (k - 1) i j

/-- Environment supplying what the out-of-scope collaborators provide:
the size of each point set (len(points)) and the pairwise Euclidean
distance capability distance_pairwise of arim.geometry, as the entry
(i, j) of the matrix for an ordered pair of point-set handles. -/
structure Env where
  size : Nat → Nat
  dist : Nat → Nat → Nat → Nat → ℚ

/-- Rays instance: allocation id (modelling Python object identity), the
times array, the full indices array and the back-reference to the path. -/
structure RaysObj where
  rid : Nat
  times : Arr2Q
  indices : Arr3N
  fermatPath : FPath

/-- Rays.interior_indices: the slice indices[1:-1]. -/
def interiorIndices (r : RaysObj) : Arr3N :=
  ⟨r.indices.d - 2, r.indices.n, r.indices.m, fun k i j => r.indices.data (k + 1) i j⟩

/-- Rays.__init__: validates the shape invariants (times.shape ==
interior_indices.shape[1:] == (len(points[0]), len(points[-1])) and
num_points_sets == interior_indices.shape[0] + 2), then builds the full
index array with make_indices. The dtype checks of the source (unsigned
indices, floating times) are intrinsic to the Nat/ℚ model. -/
def mkRays (rid : Nat) (times : Arr2Q) (interior : Arr3N) (path : FPath) (env : Env) :
    Except String RaysObj :=
  if times.n = interior.n ∧ times.m = interior.m
      ∧ times.n = env.size (firstPoint path) ∧ times.m = env.size (lastPoint path)
      ∧ numPointSets path = interior.d + 2 then
    .ok ⟨rid, times, ⟨interior.d + 2, interior.n, interior.m,
      makeIndices interior.d interior.data⟩, path⟩
  else .error ("Rays invariant violated")

/-- Rays.expand_rays: checks that the leading dimensions agree, then either
reshapes (d = 0) or gathers. The d = 0 branch is straight from the source;
the gather of the other branch is the kernel _expand_rays.
Modelled from the spec: the Cython kernel _expand_rays (arim.im._fermat_solver,
not under the provided sources): for each pair (i, k), with j =
indices_new_interface[i, k], copy interior_indices[:, i, j] and append j. -/
def expandRays (interior : Arr3N) (newIface : Arr2N) : Except String Arr3N :=
  if interior.n = newIface.n then
    if interior.d = 0 then
      .ok ⟨1, newIface.n, newIface.m, fun _ i k => newIface.data i k⟩
    else
      .ok ⟨interior.d + 1, interior.n, newIface.m, fun l i k =>
        if l < interior.d then interior.data l i (newIface.data i k)
        else newIface.data i k⟩
  else .error ("Inconsistent shapes")

/-- Mutable state of a FermatSolver instance: the two caches (association
lists, modelling the dict-like Cache of arim.core.cache), the invocation
counters num_minimization and num_euc_distance, and the allocation counter
for fresh Rays ids. -/
structure SolverState where
  cachedResult : List (FPath × RaysObj)
  cachedDistance : List ((Nat × Nat) × Arr2Q)
  numMinimization : Nat
  numEucDistance : Nat
  nextId : Nat

/-- State of a freshly constructed solver (clear_cache just ran). -/
def initState : SolverState := ⟨[], [], 0, 0, 0⟩

/-- Dictionary lookup on an association list. -/
def lookupA {κ α : Type} [DecidableEq κ] (k : κ) : List (κ × α) → Option α
  | [] => none
  | kv :: rest => if kv.1 = k then some kv.2 else lookupA k rest

/-- Pairwise-distance matrix of a pair of point sets, as produced by the
supplied capability distance_pairwise. -/
def distMatrix (env : Env) (a b : Nat) : Arr2Q :=
  ⟨env.size a, env.size b, fun i j => env.dist a b i j⟩

/-- Matrix transpose (distance.T). -/
def transposeM (M : Arr2Q) : Arr2Q := ⟨M.m, M.n, fun i j => M.data j i⟩

/-- Elementwise division of a matrix by a scalar (distance / speed). -/
def divMat (M : Arr2Q) (v : ℚ) : Arr2Q := ⟨M.n, M.m, fun i j => M.data i j / v⟩

/-- Rays.make_rays_two_interfaces: wraps a precomputed time matrix for a
two-point-set path; the interior index array is empty, of shape
(0, len(points[0]), len(points[1])). The constructor check
path.num_points_sets == 2 holds for every base path by construction.
On success a fresh allocation id is consumed. -/
def makeRaysTwoInterfaces (env : Env) (times : Arr2Q) (a : Nat) (v : ℚ) (b : Nat)
    (s : SolverState) : Except String RaysObj × SolverState :=
  let interior : Arr3N := ⟨0, env.size a, env.size b, fun _ _ _ => 0⟩
  match mkRays s.nextId times interior (.base a v b) env with
  | .ok r => (.ok r, { s with nextId := s.nextId + 1 })
  | .error e => (.error e, s)

/-- FermatSolver.consecutive_times: looks the distance matrix up in the
distance cache, computing and storing it on a miss. The source computes
rkey = (points1, points2) (line 693), so rkey always equals key and the
branch that would store the transpose under the swapped key is never
taken; this definition mirrors that line verbatim. -/
def consecutiveTimes (env : Env) (a : Nat) (v : ℚ) (b : Nat) (s : SolverState) :
    Except String RaysObj × SolverState :=
  let key : Nat × Nat := (a, b)
  match lookupA key s.cachedDistance with
  | some dM => makeRaysTwoInterfaces env (divMat dM v) a v b s
  | none =>
    let dM := distMatrix env a b
    let rkey : Nat × Nat := (a, b)
    let cd1 := (key, dM) :: s.cachedDistance
    let cd2 := if key = rkey then cd1 else (rkey, transposeM dM) :: cd1
    let s1 := { s with numEucDistance := s.numEucDistance + 1, cachedDistance := cd2 }
    makeRaysTwoInterfaces env (divMat dM v) a v b s1

/-- Minimum value together with the smallest attaining index over the range
[0, len), by a left fold with strict improvement (ties keep the earlier
index). For len = 0 the result is the dummy (f 0, 0), never used. -/
def minArgmin (f : Nat → ℚ) (len : Nat) : ℚ × Nat :=
  (List.range len).foldl (fun acc k => if f k < acc.1 then (f k, k) else acc) (f 0, 0)

/-- Modelled from the spec: the minimization capability find_minimum_times
(arim.im.base, not under the provided sources). Contract: given two time
matrices sharing a middle dimension, return the element-wise minimum over
that dimension and the argmin index, with deterministic tie-breaking
favoring the lowest index. -/
def findMinimumTimes (ta tb : Arr2Q) : Arr2Q × Arr2N :=
  (⟨ta.n, tb.m, fun i j => (minArgmin (fun k => ta.data i k + tb.data k j) ta.m).1⟩,
   ⟨ta.n, tb.m, fun i j => (minArgmin (fun k => ta.data i k + tb.data k j) ta.m).2⟩)

/-- General case of FermatSolver._solve after both sub-results are known:
count the minimization call, run find_minimum_times, expand the interior
indices of the head with the argmin indices, construct the combined Rays
and store it in the result cache. -/
def combineStep (env : Env) (path : FPath) (rh rt : RaysObj) (s : SolverState) :
    Except String RaysObj × SolverState :=
  let s3 := { s with numMinimization := s.numMinimization + 1 }
  let tm := findMinimumTimes rh.times rt.times
  match expandRays (interiorIndices rh) tm.2 with
  | .error e => (.error e, s3)
  | .ok expanded =>
    match mkRays s3.nextId tm.1 expanded path env with
    | .error e => (.error e, s3)
    | .ok res =>
      (.ok res, { s3 with
                  nextId := s3.nextId + 1
                  cachedResult := (path, res) :: s3.cachedResult })

/-- FermatSolver._solve specialized to a three-element path: cache lookup in
cached_result, then the base case consecutive_times. Note that the base case
returns without storing the Rays object in cached_result. -/
def solveBaseLookup (env : Env) (a : Nat) (v : ℚ) (b : Nat) (s : SolverState) :
    Except String RaysObj × SolverState :=
  match lookupA (FPath.base a v b) s.cachedResult with
  | some r => (.ok r, s)
  | none => consecutiveTimes env a v b s

/-- FermatSolver._solve: memoized recursive solver. Cache hit returns the
cached Rays unchanged; a three-element path goes to consecutive_times; a
longer path is split by split_queue, both halves are solved recursively
(the tail is always a three-element path) and the results are combined. -/
def solveF (env : Env) : FPath → SolverState → Except String RaysObj × SolverState
  | FPath.base a v b, s => solveBaseLookup env a v b s
  | FPath.snoc p v b, s =>
    match lookupA (FPath.snoc p v b) s.cachedResult with
    | some r => (.ok r, s)
    | none =>
      match solveF env p s with
      | (.error e, s1) => (.error e, s1)
      | (.ok rh, s1) =>
        match solveBaseLookup env (lastPoint p) v b s1 with
        | (.error e, s2) => (.error e, s2)
        | (.ok rt, s2) => combineStep env (FPath.snoc p v b) rh rt s2

/-- Coordinate vector in three dimensions. -/
abbrev Vec3 := ℚ × ℚ × ℚ

/-- Componentwise vector subtraction. -/
def vsub (a b : Vec3) : Vec3 := (a.1 - b.1, a.2.1 - b.2.1, a.2.2 - b.2.2)

/-- Interface metadata as consumed by the angle accessors: the point set
(its size and the coordinates of each point), the orientation handle of
each point, and the two optional normal-side flags. -/
structure Iface where
  size : Nat
  coord : Nat → Vec3
  orientOf : Nat → Nat
  areNormalsOnOutRaysSide : Option Bool
  areNormalsOnIncRaysSide : Option Bool

/-- Modelled from the spec: the geometric capabilities of arim.geometry
(to_gcs with origin fixed at zero, and spherical_coordinates yielding the
polar angle theta and the radius), which are not under the provided
sources, together with the constant pi, kept abstract as a rational. -/
structure GeomEnv where
  toGcs : Vec3 → Nat → Vec3
  theta : Vec3 → ℚ
  radius : Vec3 → ℚ
  piVal : ℚ

/-- Outgoing leg of ray (i, j) at interface idx, rotated into the local
frame of the interface point the ray goes through. -/
def outLocalDir (geom : GeomEnv) (rays : RaysObj) (cur nxt : Iface) (idx i j : Nat) : Vec3 :=
  let originPt := cur.coord (rays.indices.data idx i j)
  let legDir := vsub (nxt.coord (rays.indices.data (idx + 1) i j)) originPt
  geom.toGcs legDir (cur.orientOf (rays.indices.data idx i j))

/-- Outgoing angle array at one interface: theta when the flag is true,
pi minus theta otherwise. -/
def outAngleAt (geom : GeomEnv) (rays : RaysObj) (cur nxt : Iface) (idx : Nat)
    (flag : Bool) : Arr2Q :=
  ⟨rays.indices.n, rays.indices.m, fun i j =>
    let th := geom.theta (outLocalDir geom rays cur nxt idx i j)
    if flag then th else geom.piVal - th⟩

/-- Outgoing leg length array at one interface (the spherical radius). -/
def outDistAt (geom : GeomEnv) (rays : RaysObj) (cur nxt : Iface) (idx : Nat) : Arr2Q :=
  ⟨rays.indices.n, rays.indices.m, fun i j =>
    geom.radius (outLocalDir geom rays cur nxt idx i j)⟩

/-- Incoming leg of ray (i, j) at interface idx, rotated into the local
frame; the leg points to the previous interface. -/
def inLocalDir (geom : GeomEnv) (rays : RaysObj) (prev cur : Iface) (idx i j : Nat) : Vec3 :=
  let originPt := cur.coord (rays.indices.data idx i j)
  let legDir := vsub (prev.coord (rays.indices.data (idx - 1) i j)) originPt
  geom.toGcs legDir (cur.orientOf (rays.indices.data idx i j))

/-- Incoming angle array at one interface. -/
def inAngleAt (geom : GeomEnv) (rays : RaysObj) (prev cur : Iface) (idx : Nat)
    (flag : Bool) : Arr2Q :=
  ⟨rays.indices.n, rays.indices.m, fun i j =>
    let th := geom.theta (inLocalDir geom rays prev cur idx i j)
    if flag then th else geom.piVal - th⟩

/-- Incoming leg length array at one interface. -/
def inDistAt (geom : GeomEnv) (rays : RaysObj) (prev cur : Iface) (idx : Nat) : Arr2Q :=
  ⟨rays.indices.n, rays.indices.m, fun i j =>
    geom.radius (inLocalDir geom rays prev cur idx i j)⟩

/-- Loop skeleton of Rays.get_outgoing_angles: one element per interface
except the last (pairs of consecutive interfaces, with the running
interface index), followed by the final None yielded for the last
interface. For zero or one interface only the final None is produced. -/
def outgoingAux {α : Type} (elemOf : Nat → Iface → Iface → Option α) :
    Nat → List Iface → List (Option α)
  | idx, cur :: nxt :: rest => elemOf idx cur nxt :: outgoingAux elemOf (idx + 1) (nxt :: rest)
  | _, _ => [none]

/-- Rays.get_outgoing_angles with return_distances=True: yields None when
the interface declares no out-rays-side convention, otherwise the pair
(alpha, distances). -/
def getOutgoingAnglesRD (geom : GeomEnv) (rays : RaysObj) (ifaces : List Iface) :
    List (Option (Arr2Q × Arr2Q)) :=
  outgoingAux (fun idx cur nxt =>
    match cur.areNormalsOnOutRaysSide with
    | none => none
    | some flag =>
      some (outAngleAt geom rays cur nxt idx flag, outDistAt geom rays cur nxt idx)) 0 ifaces

/-- Rays.get_outgoing_angles with return_distances=False: the source
(line 346) executes yield distances, so the element produced for an
interface with a declared convention is the leg length array, not the
angle array. -/
def getOutgoingAnglesND (geom : GeomEnv) (rays : RaysObj) (ifaces : List Iface) :
    List (Option Arr2Q) :=
  outgoingAux (fun idx cur nxt =>
    match cur.areNormalsOnOutRaysSide with
    | none => none
    | some _ => some (outDistAt geom rays cur nxt idx)) 0 ifaces

/-- Loop skeleton of Rays.get_incoming_angles: one element per interface
except the first (pairs of consecutive interfaces, the running index being
the index of the current interface). -/
def incomingAux {α : Type} (elemOf : Nat → Iface → Iface → Option α) :
    Nat → List Iface → List (Option α)
  | idx, prev :: cur :: rest => elemOf idx prev cur :: incomingAux elemOf (idx + 1) (cur :: rest)
  | _, _ => []

/-- Rays.get_incoming_angles with return_distances=True: yields None first
(for the first interface), then one element per remaining interface. -/
def getIncomingAnglesRD (geom : GeomEnv) (rays : RaysObj) (ifaces : List Iface) :
    List (Option (Arr2Q × Arr2Q)) :=
  none :: incomingAux (fun idx prev cur =>
    match cur.areNormalsOnIncRaysSide with
    | none => none
    | some flag =>
      some (inAngleAt geom rays prev cur idx flag, inDistAt geom rays prev cur idx)) 1 ifaces

/-- Rays.get_incoming_angles with return_distances=False: the source
(line 438) executes yield distances, mirroring the outgoing case. -/
def getIncomingAnglesND (geom : GeomEnv) (rays : RaysObj) (ifaces : List Iface) :
    List (Option Arr2Q) :=
  none :: incomingAux (fun idx prev cur =>
    match cur.areNormalsOnIncRaysSide with
    | none => none
    | some _ => some (inDistAt geom rays prev cur idx)) 1 ifaces

/-- Consistency of the distance cache with the environment: every stored
matrix is the pairwise-distance matrix of its key. -/
def DistCacheOK (env : Env) (cd : List ((Nat × Nat) × Arr2Q)) : Prop :=
  ∀ a b M, lookupA (a, b) cd = some M → M = distMatrix env a b

/-- Property proved for a five-element path: the recursive solve succeeds
and its times are, entrywise, the minimum over the middle point set of the
sum of the two leg times returned by solving the two three-element
sub-paths. -/
def TwoGapMinProp (env : Env) (p0 : Nat) (v01 : ℚ) (p1 : Nat) (v12 : ℚ) (p2 : Nat) : Prop :=
  ∃ r s rh sh rt st,
    solveF env (.snoc (.base p0 v01 p1) v12 p2) initState = (.ok r, s) ∧
    solveF env (.base p0 v01 p1) initState = (.ok rh, sh) ∧
    solveF env (.base p1 v12 p2) initState = (.ok rt, st) ∧
    ∀ i j,
      (∀ k, k < env.size p1 → r.times.data i j ≤ rh.times.data i k + rt.times.data k j) ∧
      ∃ k, k < env.size p1 ∧ r.times.data i j = rh.times.data i k + rt.times.data k j

/-- Allocation id of the Rays result of a solver step, when successful. -/
def okRid (x : Except String RaysObj × SolverState) : Option Nat :=
  match x.1 with
  | .ok r => some r.rid
  | .error _ => none

/-- First element of an optional-array sequence, as a rational sample
(entry (0,0)); zero when absent. -/
def headElemQ (l : List (Option Arr2Q)) : ℚ :=
  match l with
  | some a :: _ => a.data 0 0
  | _ => 0

/-- Sample of the angle slot of the first element of an (angle, distance)
sequence; zero when absent. -/
def headElemPairQ (l : List (Option (Arr2Q × Arr2Q))) : ℚ :=
  match l with
  | some pr :: _ => pr.1.data 0 0
  | _ => 0

/-- Sample of the second element of an optional-array sequence. -/
def secondElemQ (l : List (Option Arr2Q)) : ℚ :=
  match l with
  | _ :: some a :: _ => a.data 0 0
  | _ => 0

/-- Whether the first element of the sequence is the None sentinel. -/
def headIsNone {α : Type} (l : List (Option α)) : Bool :=
  match l with
  | none :: _ => true
  | _ => false

/-- Whether the last element of the sequence is the None sentinel. -/
def lastIsNone {α : Type} (l : List (Option α)) : Bool :=
  match l.getLast? with
  | some none => true
  | _ => false

/-- Concrete environment for witnesses: every point set has one point and
all pairwise distances are zero. -/
def cEnvW : Env := ⟨fun _ => 1, fun _ _ _ _ => 0⟩

/-- Concrete geometry: rotation is the identity, the polar angle is
constantly 5, the radius constantly 7, and pi is taken as 100, so angle
and radius samples are distinguishable. -/
def cGeom : GeomEnv := ⟨fun leg _ => leg, fun _ => 5, fun _ => 7, 100⟩

/-- Concrete Rays value over a two-point-set path, all indices zero. -/
def cRays4 : RaysObj := ⟨0, ⟨1, 1, fun _ _ => 0⟩, ⟨2, 1, 1, fun _ _ _ => 0⟩, .base 0 1 1⟩

/-- Concrete interface with one point at the origin and both normal-side
flags declared true. -/
def cIf : Iface := ⟨1, fun _ => (0, 0, 0), fun _ => 0, some true, some true⟩

/-- Concrete 1x1 time matrix. -/
def cTimes1 : Arr2Q := ⟨1, 1, fun _ _ => 0⟩

/-- Concrete empty interior index array of shape (0, 1, 1). -/
def cInterior0 : Arr3N := ⟨0, 1, 1, fun _ _ _ => 0⟩

/-- Concrete empty interior index array of shape (0, 1, 3). -/
def cInterior02 : Arr3N := ⟨0, 1, 3, fun _ _ _ => 0⟩

/-- Concrete new-interface index array of shape (1, 2). -/
def cNewIface : Arr2N := ⟨1, 2, fun i k => i + k⟩

/-- The Rays value produced by mkRays 5 cTimes1 cInterior0 over the path
(0, 1, 1) in cEnvW. -/
def wRaysA : RaysObj :=
  ⟨5, cTimes1, ⟨cInterior0.d + 2, cInterior0.n, cInterior0.m,
    makeIndices cInterior0.d cInterior0.data⟩, FPath.base 0 1 1⟩

/-- The Rays value produced by mkRays 7 cTimes1 cInterior0 over the path
(0, 1, 1) in cEnvW. -/
def wRaysB : RaysObj :=
  ⟨7, cTimes1, ⟨cInterior0.d + 2, cInterior0.n, cInterior0.m,
    makeIndices cInterior0.d cInterior0.data⟩, FPath.base 0 1 1⟩

/-- Boolean success test for Except values. -/
def isOkE {ε α : Type} : Except ε α → Bool
  | .ok _ => true
  | .error _ => false

/-- The fold of minArgmin visits the candidates in index order, so for a
nonempty range it returns an attained minimum and the lowest attaining
index. -/
lemma minArgmin_spec (f : Nat → ℚ) : ∀ len : Nat, 0 < len →
    (minArgmin f len).2 < len ∧ f (minArgmin f len).2 = (minArgmin f len).1 ∧
      ∀ k, k < len → (minArgmin f len).1 ≤ f k := by
  intro len
  induction len with
  | zero => intro h; exact absurd h (lt_irrefl 0)
  | succ n ih =>
    intro _
    have hstep : minArgmin f (n + 1) =
        (if f n < (minArgmin f n).1 then (f n, n) else minArgmin f n) := by
      unfold minArgmin
      rw [List.range_succ, List.foldl_append]
      simp
    rcases Nat.eq_zero_or_pos n with hn | hn
    · subst hn
      have hbase : minArgmin f 0 = (f 0, 0) := by simp [minArgmin]
      rw [hstep, hbase]
      simp only [ite_self]
      refine ⟨Nat.zero_lt_one, by simp, ?_⟩
      intro k hk
      have : k = 0 := by omega
      subst this
      simp
    · obtain ⟨ih1, ih2, ih3⟩ := ih hn
      rw [hstep]
      by_cases hc : f n < (minArgmin f n).1
      · rw [if_pos hc]
        refine ⟨Nat.lt_succ_self n, rfl, ?_⟩
        intro k hk
        rcases Nat.lt_succ_iff_lt_or_eq.mp hk with hk2 | hk2
        · exact le_of_lt (lt_of_lt_of_le hc (ih3 k hk2))
        · subst hk2; exact le_refl _
      · rw [if_neg hc]
        refine ⟨Nat.lt_succ_of_lt ih1, ih2, ?_⟩
        intro k hk
        rcases Nat.lt_succ_iff_lt_or_eq.mp hk with hk2 | hk2
        · exact ih3 k hk2
        · subst hk2; exact le_of_not_lt hc

lemma distCacheOK_init (env : Env) : DistCacheOK env initState.cachedDistance := by
  intro a b M h
  simp [initState, lookupA] at h

/-- make_rays_two_interfaces on a time matrix of the right shape succeeds
and consumes one fresh allocation id. -/
lemma makeRaysTwo_ok (env : Env) (M : Arr2Q) (a : Nat) (v : ℚ) (b : Nat) (s : SolverState)
    (hn : M.n = env.size a) (hm : M.m = env.size b) :
    makeRaysTwoInterfaces env (divMat M v) a v b s =
      (.ok ⟨s.nextId, divMat M v,
        ⟨2, env.size a, env.size b, makeIndices 0 (fun _ _ _ => 0)⟩, FPath.base a v b⟩,
       { s with nextId := s.nextId + 1 }) := by
  simp only [makeRaysTwoInterfaces, mkRays]
  have hcond : (divMat M v).n = env.size a ∧ (divMat M v).m = env.size b ∧
      (divMat M v).n = env.size (firstPoint (FPath.base a v b)) ∧
      (divMat M v).m = env.size (lastPoint (FPath.base a v b)) ∧
      numPointSets (FPath.base a v b) = 0 + 2 := ⟨hn, hm, hn, hm, rfl⟩
  rw [if_pos hcond]

/-- consecutive_times from a consistent state: it succeeds, the returned
times are the pairwise distances divided by the speed, the result has two
index layers of the right shape, the distance cache stays consistent, the
result cache is untouched, and one fresh id is consumed. -/
lemma consecutiveTimes_ok (env : Env) (a : Nat) (v : ℚ) (b : Nat) (s : SolverState)
    (hcd : DistCacheOK env s.cachedDistance) :
    ∃ r s2, consecutiveTimes env a v b s = (.ok r, s2) ∧
      r.rid = s.nextId ∧
      r.times.n = env.size a ∧ r.times.m = env.size b ∧
      (∀ i j, r.times.data i j = env.dist a b i j / v) ∧
      r.indices.d = 2 ∧ r.indices.n = env.size a ∧ r.indices.m = env.size b ∧
      DistCacheOK env s2.cachedDistance ∧
      s2.cachedResult = s.cachedResult ∧ s2.nextId = s.nextId + 1 := by
  simp only [consecutiveTimes]
  cases hdm : lookupA ((a, b) : Nat × Nat) s.cachedDistance with
  | some dM =>
    simp only []
    have hM : dM = distMatrix env a b := hcd a b dM hdm
    subst hM
    rw [makeRaysTwo_ok env (distMatrix env a b) a v b s rfl rfl]
    refine ⟨_, _, rfl, rfl, rfl, rfl, fun i j => rfl, rfl, rfl, rfl, hcd, rfl, rfl⟩
  | none =>
    simp only [if_true]
    rw [makeRaysTwo_ok env (distMatrix env a b) a v b _ rfl rfl]
    refine ⟨_, _, rfl, rfl, rfl, rfl, fun i j => rfl, rfl, rfl, rfl, ?_, rfl, rfl⟩
    intro a2 b2 M2 hl
    unfold lookupA at hl
    by_cases he : ((a, b) : Nat × Nat) = (a2, b2)
    · rw [if_pos he] at hl
      obtain ⟨he1, he2⟩ := Prod.mk.injEq a b a2 b2 ▸ he
      subst he1; subst he2
      injection hl with hl
      exact hl.symm
    · rw [if_neg he] at hl
      exact hcd a2 b2 M2 hl

/-- The combination step of _solve succeeds whenever the head result has
two index layers of matching width (the head is a base-path result), the
two time matrices have the widths of the first and last point sets, and
the combined path has three point sets; the combined times are the folded
minima over the middle dimension, and the new Rays object is stored in the
result cache. -/
lemma combineStep_ok (env : Env) (path : FPath) (rh rt : RaysObj) (s : SolverState)
    (hd : rh.indices.d = 2) (hin : rh.indices.n = rh.times.n)
    (h1 : rh.times.n = env.size (firstPoint path))
    (h2 : rt.times.m = env.size (lastPoint path))
    (h3 : numPointSets path = 3) :
    ∃ res s4, combineStep env path rh rt s = (.ok res, s4) ∧
      s4.cachedResult = (path, res) :: s.cachedResult ∧
      (∀ i j, res.times.data i j =
        (minArgmin (fun k => rh.times.data i k + rt.times.data k j) rh.times.m).1) := by
  simp only [combineStep]
  have hex : expandRays (interiorIndices rh) (findMinimumTimes rh.times rt.times).2 =
      .ok ⟨1, (findMinimumTimes rh.times rt.times).2.n,
        (findMinimumTimes rh.times rt.times).2.m,
        fun _ i k => (findMinimumTimes rh.times rt.times).2.data i k⟩ := by
    simp only [expandRays, interiorIndices]
    rw [if_pos (show rh.indices.n = (findMinimumTimes rh.times rt.times).2.n from hin)]
    rw [if_pos (show rh.indices.d - 2 = 0 by rw [hd])]
  rw [hex]
  simp only []
  have hmk : mkRays s.nextId (findMinimumTimes rh.times rt.times).1
      ⟨1, (findMinimumTimes rh.times rt.times).2.n,
        (findMinimumTimes rh.times rt.times).2.m,
        fun _ i k => (findMinimumTimes rh.times rt.times).2.data i k⟩ path env =
      .ok ⟨s.nextId, (findMinimumTimes rh.times rt.times).1,
        ⟨1 + 2, (findMinimumTimes rh.times rt.times).2.n,
          (findMinimumTimes rh.times rt.times).2.m,
          makeIndices 1 (fun _ i k => (findMinimumTimes rh.times rt.times).2.data i k)⟩,
        path⟩ := by
    simp only [mkRays]
    rw [if_pos]
    exact ⟨rfl, rfl,
      show rh.times.n = env.size (firstPoint path) from h1,
      show rt.times.m = env.size (lastPoint path) from h2,
      show numPointSets path = 1 + 2 from h3⟩
  rw [hmk]
  exact ⟨_, _, rfl, rfl, fun i j => rfl⟩

/-- Every successful _solve call on a path with at least five elements
leaves its result in the result cache under the path key. -/
lemma solveF_snoc_caches (env : Env) (p : FPath) (v : ℚ) (b : Nat) (s : SolverState)
    (r : RaysObj) (s2 : SolverState)
    (h : solveF env (.snoc p v b) s = (.ok r, s2)) :
    lookupA (FPath.snoc p v b) s2.cachedResult = some r := by
  rw [solveF] at h
  cases hl : lookupA (FPath.snoc p v b) s.cachedResult with
  | some r0 =>
    rw [hl] at h
    injection h with h1 h2
    injection h1 with h1
    subst h1; subst h2
    exact hl
  | none =>
    rw [hl] at h
    rcases hh : solveF env p s with ⟨eh, s1⟩
    rw [hh] at h
    simp only [] at h
    cases eh with
    | error e =>
      injection h with h1 _
      exact absurd h1 (by simp)
    | ok rh =>
      simp only [] at h
      rcases ht : solveBaseLookup env (lastPoint p) v b s1 with ⟨et, s1b⟩
      rw [ht] at h
      cases et with
      | error e =>
        injection h with h1 _
        exact absurd h1 (by simp)
      | ok rt =>
        simp only [combineStep] at h
        cases hex : expandRays (interiorIndices rh) (findMinimumTimes rh.times rt.times).2 with
        | error e =>
          rw [hex] at h
          injection h with h1 _
          exact absurd h1 (by simp)
        | ok expanded =>
          rw [hex] at h
          simp only [] at h
          cases hmk : mkRays s1b.nextId
              (findMinimumTimes rh.times rt.times).1 expanded (FPath.snoc p v b) env with
          | error e =>
            rw [hmk] at h
            injection h with h1 _
            exact absurd h1 (by simp)
          | ok res =>
            rw [hmk] at h
            injection h with h1 h2
            injection h1 with h1
            subst h1
            subst h2
            simp [lookupA]

/-- The outgoing-angle loop always ends by yielding the final None for the
last interface: its output is some list followed by [none]. -/
lemma outgoingAux_shape {α : Type} (elemOf : Nat → Iface → Iface → Option α) :
    ∀ (l : List Iface) (idx : Nat),
      ∃ l2, outgoingAux elemOf idx l = l2 ++ [(none : Option α)] := by
  intro l
  induction l with
  | nil => intro idx; exact ⟨[], rfl⟩
  | cons cur rest ih =>
    intro idx
    cases rest with
    | nil => exact ⟨[], rfl⟩
    | cons nxt rest2 =>
      obtain ⟨l2, hl2⟩ := ih (idx + 1)
      refine ⟨elemOf idx cur nxt :: l2, ?_⟩
      simp only [outgoingAux]
      rw [hl2]
      simp

/-- The second point set of a path with at least five elements is both the
last point of its three leading elements and the first point of the path
with the two leading elements removed. -/
lemma lastPoint_firstGapHead (p : FPath) :
    ∀ (v : ℚ) (b : Nat), lastPoint (firstGapHead p) = firstPoint (beheadSnoc p v b) := by
  induction p with
  | base a v0 b0 => intro v b; rfl
  | snoc q v1 b1 ih =>
    intro v b
    simp only [firstGapHead, beheadSnoc, firstPoint]
    exact ih v1 b1

/-- Grafting the three leading elements onto the rest reconstitutes the
original path. -/
lemma fappend_split (p : FPath) :
    ∀ (v : ℚ) (b : Nat), fappend (firstGapHead p) (beheadSnoc p v b) = FPath.snoc p v b := by
  induction p with
  | base a v0 b0 => intro v b; rfl
  | snoc q v1 b1 ih =>
    intro v b
    simp only [firstGapHead, beheadSnoc, fappend]
    rw [ih v1 b1]

/-- Every path has at least three tuple elements, so every snoc path has at
least five. -/
lemma pathLen_ge_three (p : FPath) : 3 ≤ pathLen p := by
  induction p with
  | base a v b => simp [pathLen]
  | snoc q v b ih => simp [pathLen]; omega

/-- C6: for every successfully constructed Rays object, the first layer of
the index array is the start index and the last layer is the end index:
indices[0, i, j] = i and indices[d-1, i, j] = j for i below the number of
start points and j below the number of end points. -/
theorem rays_first_last_index_layers (rid : Nat) (times : Arr2Q) (interior : Arr3N)
    (path : FPath) (env : Env) (r : RaysObj)
    (h : mkRays rid times interior path env = .ok r) (i j : Nat)
    (hi : i < r.times.n) (hj : j < r.times.m) :
    r.indices.data 0 i j = i ∧ r.indices.data (r.indices.d - 1) i j = j := by
  rw [mkRays] at h
  split at h
  · injection h with h1
    subst h1
    constructor
    · simp [makeIndices]
    · simp only [makeIndices]
      rw [if_neg (by omega : ¬ ((interior.d + 2 - 1) = 0))]
      rw [if_pos (by omega : (interior.d + 2 - 1) = interior.d + 1)]
  · exact absurd h (by simp)

/-- C6 witness: a concrete successful construction over a two-point-set
path with one point on each side. -/
theorem rays_first_last_index_layers_witness :
    (mkRays 5 cTimes1 cInterior0 (FPath.base 0 1 1) cEnvW = .ok wRaysA ∧
      0 < wRaysA.times.n ∧ 0 < wRaysA.times.m) ∧
    (wRaysA.indices.data 0 0 0 = 0 ∧
      wRaysA.indices.data (wRaysA.indices.d - 1) 0 0 = 0) :=
  ⟨⟨rfl, by decide, by decide⟩,
   rays_first_last_index_layers 5 cTimes1 cInterior0 (FPath.base 0 1 1) cEnvW wRaysA rfl
     0 0 (by decide) (by decide)⟩

/-- C7: for every two-point-set path solved via the base case from a fresh
solver state, the solve succeeds and times[i, j] equals the pairwise
distance supplied by the distance capability divided by the speed. -/
theorem two_point_path_times_distance_over_speed (env : Env) (a : Nat) (v : ℚ) (b : Nat) :
    ∃ r s2, solveF env (.base a v b) initState = (.ok r, s2) ∧
      r.times.n = env.size a ∧ r.times.m = env.size b ∧
      ∀ i j, r.times.data i j = env.dist a b i j / v := by
  obtain ⟨r, s2, heq, _, hn, hm, hdata, _, _, _, _, _, _⟩ :=
    consecutiveTimes_ok env a v b initState (distCacheOK_init env)
  exact ⟨r, s2, heq, hn, hm, hdata⟩

/-- C8: expand_rays called with an empty interior index array (d = 0) and a
matching width returns the new-interface index array reshaped with one
leading singleton axis, all values unchanged. -/
theorem expand_rays_zero_interior_reshape (interior : Arr3N) (newIface : Arr2N)
    (hd : interior.d = 0) (hn : interior.n = newIface.n) :
    ∃ res, expandRays interior newIface = .ok res ∧
      res.d = 1 ∧ res.n = newIface.n ∧ res.m = newIface.m ∧
      ∀ i k, res.data 0 i k = newIface.data i k := by
  unfold expandRays
  rw [if_pos hn, if_pos hd]
  exact ⟨_, rfl, rfl, rfl, rfl, fun i k => rfl⟩

/-- C8 witness: a concrete empty interior array of shape (0, 1, 3) and a
concrete index array of shape (1, 2). -/
theorem expand_rays_zero_interior_reshape_witness :
    (cInterior02.d = 0 ∧ cInterior02.n = cNewIface.n) ∧
    (∃ res, expandRays cInterior02 cNewIface = .ok res ∧
      res.d = 1 ∧ res.n = cNewIface.n ∧ res.m = cNewIface.m ∧
      ∀ i k, res.data 0 i k = cNewIface.data i k) :=
  ⟨⟨by decide, by decide⟩,
   expand_rays_zero_interior_reshape cInterior02 cNewIface (by decide) (by decide)⟩

/-- C9: for every path with at least five elements, split_queue and
split_head both succeed and concatenating their two halves with the path
addition reconstitutes the original path. -/
theorem split_concat_roundtrip (p : FPath) (v : ℚ) (b : Nat) :
    5 ≤ pathLen (FPath.snoc p v b) ∧
    (∃ h t, splitQueue (FPath.snoc p v b) = .ok (h, t) ∧
      fadd h t = .ok (FPath.snoc p v b)) ∧
    (∃ h t, splitHead (FPath.snoc p v b) = .ok (h, t) ∧
      fadd h t = .ok (FPath.snoc p v b)) := by
  refine ⟨?_, ?_, ?_⟩
  · have := pathLen_ge_three p
    simp [pathLen]
    omega
  · refine ⟨p, .base (lastPoint p) v b, rfl, ?_⟩
    unfold fadd
    rw [if_pos (show lastPoint p = firstPoint (FPath.base (lastPoint p) v b) from rfl)]
    rfl
  · refine ⟨firstGapHead p, beheadSnoc p v b, rfl, ?_⟩
    unfold fadd
    rw [if_pos (lastPoint_firstGapHead p v b)]
    rw [fappend_split p v b]

/-- C10: construction is faithful: a successfully constructed Rays object
returns exactly the times array passed in, and its interior_indices slice
has the shape of the interior array passed in with identical entries on
every layer below its depth. -/
theorem rays_constructor_faithful (rid : Nat) (times : Arr2Q) (interior : Arr3N)
    (path : FPath) (env : Env) (r : RaysObj)
    (h : mkRays rid times interior path env = .ok r) :
    r.times = times ∧
    (interiorIndices r).d = interior.d ∧ (interiorIndices r).n = interior.n ∧
    (interiorIndices r).m = interior.m ∧
    ∀ k i j, k < interior.d → (interiorIndices r).data k i j = interior.data k i j := by
  rw [mkRays] at h
  split at h
  · injection h with h1
    subst h1
    refine ⟨rfl, by simp [interiorIndices], rfl, rfl, ?_⟩
    intro k i j hk
    simp only [interiorIndices, makeIndices]
    rw [if_neg (Nat.succ_ne_zero k), if_neg (by omega : ¬ (k + 1 = interior.d + 1))]
    simp
  · exact absurd h (by simp)

/-- C10 witness: a concrete successful construction; the times and interior
arrays are returned unchanged. -/
theorem rays_constructor_faithful_witness :
    mkRays 7 cTimes1 cInterior0 (FPath.base 0 1 1) cEnvW = .ok wRaysB ∧
    (wRaysB.times = cTimes1 ∧
      (interiorIndices wRaysB).d = cInterior0.d ∧
      (interiorIndices wRaysB).n = cInterior0.n ∧
      (interiorIndices wRaysB).m = cInterior0.m ∧
      ∀ k i j, k < cInterior0.d →
        (interiorIndices wRaysB).data k i j = cInterior0.data k i j) :=
  ⟨rfl, rays_constructor_faithful 7 cTimes1 cInterior0 (FPath.base 0 1 1) cEnvW wRaysB rfl⟩

/-- C2 counterexample: the claim fails as stated for a three-element path.
The base case of _solve never stores its Rays in the result cache, so a
second _solve on the same two-point-set path constructs a fresh Rays
object: the allocation ids of the two results differ, hence the second
call does not return the identical cached object. -/
theorem solve_twice_base_path_fresh_object :
    okRid (solveF cEnvW (FPath.base 0 1 1)
        ((solveF cEnvW (FPath.base 0 1 1) initState).2)) ≠
      okRid (solveF cEnvW (FPath.base 0 1 1) initState) := by
  decide

/-- C2 amended: for every path with at least five elements (snoc form),
if the first _solve succeeds then calling _solve again on the same path in
the resulting state returns exactly the same pair of result and state: the
identical cached Rays object is returned and the solver state, including
both caches and both capability-invocation counters, is unchanged. -/
theorem solve_twice_returns_cached (env : Env) (p : FPath) (v : ℚ) (b : Nat)
    (s : SolverState) (h : isOkE (solveF env (.snoc p v b) s).1 = true) :
    solveF env (.snoc p v b) ((solveF env (.snoc p v b) s).2) =
      solveF env (.snoc p v b) s := by
  rcases hx : solveF env (.snoc p v b) s with ⟨e, s2⟩
  cases e with
  | error e0 =>
    rw [hx] at h
    simp [isOkE] at h
  | ok r =>
    have hc := solveF_snoc_caches env p v b s r s2 hx
    show solveF env (.snoc p v b) s2 = (.ok r, s2)
    rw [solveF, hc]

/-- C2 witness: a concrete five-element path solved twice in cEnvW. -/
theorem solve_twice_returns_cached_witness :
    isOkE (solveF cEnvW (FPath.snoc (FPath.base 0 1 1) 1 2) initState).1 = true ∧
    solveF cEnvW (FPath.snoc (FPath.base 0 1 1) 1 2)
        ((solveF cEnvW (FPath.snoc (FPath.base 0 1 1) 1 2) initState).2) =
      solveF cEnvW (FPath.snoc (FPath.base 0 1 1) 1 2) initState :=
  ⟨by decide,
   solve_twice_returns_cached cEnvW (FPath.base 0 1 1) 1 2 initState (by decide)⟩

/-- C3: evaluating the base case on a path whose two point sets differ
(handles 0 and 1): after the computation the distance cache has an entry
under the key (0, 1) but none under the swapped key (1, 0), because line
693 of the source assigns rkey = (points1, points2) instead of the swapped
pair, so the branch storing the transpose is never taken. -/
theorem distance_cache_swapped_key_missing :
    (lookupA ((1 : Nat), (0 : Nat))
        ((solveF cEnvW (FPath.base 0 1 1) initState).2.cachedDistance)).isNone = true ∧
    (lookupA ((0 : Nat), (1 : Nat))
        ((solveF cEnvW (FPath.base 0 1 1) initState).2.cachedDistance)).isSome = true := by
  decide

/-- C4: evaluating the angle accessors on a concrete geometry where the
polar angle is constantly 5 and the radius constantly 7, with the
normal-side flags declared true: with return_distances the angle slot of
the first outgoing element is theta = 5, but without return_distances the
generators yield the radius 7 (the leg length), not the angle, for both
the outgoing and the incoming accessor. -/
theorem angles_without_distances_yield_radius :
    headElemQ (getOutgoingAnglesND cGeom cRays4 [cIf, cIf]) = 7 ∧
    headElemPairQ (getOutgoingAnglesRD cGeom cRays4 [cIf, cIf]) = 5 ∧
    secondElemQ (getIncomingAnglesND cGeom cRays4 [cIf, cIf]) = 7 ∧
    ((7 : ℚ)) ≠ 5 := by
  decide

/-- C5 counterexample: on two interfaces that both declare their
normal-side conventions, the first element produced by get_outgoing_angles
is not the None sentinel, and the last element produced by
get_incoming_angles is not the None sentinel either: the claim has the two
positions swapped. -/
theorem first_outgoing_sentinel_counterexample :
    headIsNone (getOutgoingAnglesRD cGeom cRays4 [cIf, cIf]) = false ∧
    lastIsNone (getIncomingAnglesRD cGeom cRays4 [cIf, cIf]) = false := by
  decide

/-- C5 amended: in the sequence produced by get_outgoing_angles the LAST
element is always the None sentinel, and in the sequence produced by
get_incoming_angles the FIRST element is always the None sentinel, in both
the with-distances and without-distances variants. -/
theorem angle_sentinel_positions (geom : GeomEnv) (rays : RaysObj) (ifaces : List Iface) :
    (getOutgoingAnglesRD geom rays ifaces).getLast? = some none ∧
    (getOutgoingAnglesND geom rays ifaces).getLast? = some none ∧
    (getIncomingAnglesRD geom rays ifaces).head? = some none ∧
    (getIncomingAnglesND geom rays ifaces).head? = some none := by
  refine ⟨?_, ?_, rfl, rfl⟩
  · unfold getOutgoingAnglesRD
    obtain ⟨l2, hl2⟩ := outgoingAux_shape
      (fun idx cur nxt =>
        match cur.areNormalsOnOutRaysSide with
        | none => none
        | some flag =>
          some (outAngleAt geom rays cur nxt idx flag, outDistAt geom rays cur nxt idx))
      ifaces 0
    rw [hl2]
    exact List.getLast?_concat l2
  · unfold getOutgoingAnglesND
    obtain ⟨l2, hl2⟩ := outgoingAux_shape
      (fun idx cur nxt =>
        match cur.areNormalsOnOutRaysSide with
        | none => none
        | some _ => some (outDistAt geom rays cur nxt idx))
      ifaces 0
    rw [hl2]
    exact List.getLast?_concat l2

/-- C1: for every five-element path solved by _solve from a fresh solver
state, with the minimization capability modelled by its contract, the
returned times equal, entrywise, the minimum over all intermediate points
of the middle point set of the sum of the head and tail leg times, where
head and tail are the two three-element sub-paths solved on their own. -/
theorem two_gap_recursive_solve_minimum (env : Env) (p0 : Nat) (v01 : ℚ) (p1 : Nat)
    (v12 : ℚ) (p2 : Nat) (hmid : 0 < env.size p1) :
    TwoGapMinProp env p0 v01 p1 v12 p2 := by
  have h0 : DistCacheOK env initState.cachedDistance := distCacheOK_init env
  obtain ⟨rh, sh, hheq, hhrid, hhn, hhm, hhdata, hhd, hhin, hhim, hhcd, hhres, hhnext⟩ :=
    consecutiveTimes_ok env p0 v01 p1 initState h0
  have hhead : solveF env (.base p0 v01 p1) initState = (.ok rh, sh) := hheq
  obtain ⟨rt0, st0, hteq0, htrid0, htn0, htm0, htdata0, htd0, htin0, htim0, htcd0,
      htres0, htnext0⟩ := consecutiveTimes_ok env p1 v12 p2 initState h0
  have htail0 : solveF env (.base p1 v12 p2) initState = (.ok rt0, st0) := hteq0
  obtain ⟨rt, st, hteq, htrid, htn, htm, htdata, htd, htin, htim, htcd, htres, htnext⟩ :=
    consecutiveTimes_ok env p1 v12 p2 sh hhcd
  have htail : solveBaseLookup env p1 v12 p2 sh = (.ok rt, st) := by
    unfold solveBaseLookup
    rw [show lookupA (FPath.base p1 v12 p2) sh.cachedResult = none by
      rw [hhres]; rfl]
    exact hteq
  obtain ⟨res, s4, hcomb, hcache, hdata⟩ :=
    combineStep_ok env (FPath.snoc (.base p0 v01 p1) v12 p2) rh rt st hhd
      (by rw [hhin, hhn]) hhn htm rfl
  have hmain : solveF env (.snoc (.base p0 v01 p1) v12 p2) initState = (.ok res, s4) := by
    rw [solveF]
    rw [show lookupA (FPath.snoc (FPath.base p0 v01 p1) v12 p2) initState.cachedResult
      = none from rfl]
    simp only []
    rw [hhead]
    simp only [lastPoint]
    rw [htail]
    exact hcomb
  refine ⟨res, s4, rh, sh, rt0, st0, hmain, hhead, htail0, ?_⟩
  intro i j
  have hfun : (fun k => rh.times.data i k + rt.times.data k j) =
      (fun k => rh.times.data i k + rt0.times.data k j) := by
    funext k
    rw [htdata k j, htdata0 k j]
  obtain ⟨ha1, ha2, ha3⟩ :=
    minArgmin_spec (fun k => rh.times.data i k + rt0.times.data k j) (env.size p1) hmid
  constructor
  · intro k hk
    rw [hdata i j, hfun, hhm]
    exact ha3 k hk
  · refine ⟨(minArgmin (fun k => rh.times.data i k + rt0.times.data k j) (env.size p1)).2,
      ha1, ?_⟩
    rw [hdata i j, hfun, hhm]
    exact ha2.symm

/-- C1 witness: concrete one-point point sets at unit speed in cEnvW. -/
theorem two_gap_recursive_solve_minimum_witness :
    0 < cEnvW.size 1 ∧ TwoGapMinProp cEnvW 0 1 1 1 2 :=
  ⟨by decide, two_gap_recursive_solve_minimum cEnvW 0 1 1 1 2 (by decide)⟩
